import Mathlib

/-
Verification of the syl-listing-pro run controller, rules store, input
discovery, trace rendering and transport retry classifier.

Strings of the Go source are modelled as `List Char` (`GoStr`).  Effectful
operations (filesystem, network, RSA) are modelled by explicit environment
records of oracles; the control flow of each Go function is translated
statement by statement.  Whitespace trimming models `strings.TrimSpace`
restricted to the ASCII whitespace characters, which are the only ones
appearing in the constants and claims of this development.
-/

set_option maxRecDepth 4000

abbrev GoStr := List Char

/-- coerce a Lean string literal to the `List Char` model. -/
def gs (s : String) : GoStr := s.data

/-- whitespace predicate used by the `strings.TrimSpace` model (ASCII subset). -/
def isSpc (c : Char) : Bool :=
  c == ' ' || c == '\t' || c == '\n' || c == '\r' || c == '\x0b' || c == '\x0c'

/-- right trim: drop trailing whitespace (model of the right half of TrimSpace). -/
def trimR (s : GoStr) : GoStr := (s.reverse.dropWhile isSpc).reverse

/-- model of Go `strings.TrimSpace`: right trim then left trim. -/
def trimSpace (s : GoStr) : GoStr := (trimR s).dropWhile isSpc

/-- does `s` start with `pat` (model of `strings.HasPrefix`). -/
def startsWith : GoStr → GoStr → Bool
  | _, [] => true
  | [], _ => false
  | a :: s, b :: t => a == b && startsWith s t

/-- model of Go `strings.TrimPrefix`. -/
def trimPre (s pat : GoStr) : GoStr :=
  if startsWith s pat then s.drop pat.length else s

/-- model of Go `strings.Contains` (substring search). -/
def containsStr : GoStr → GoStr → Bool
  | [], sub => sub.isEmpty
  | a :: t, sub => startsWith (a :: t) sub || containsStr t sub

/-- ASCII lowercase map, model of `strings.ToLower` on the ASCII messages used here. -/
def lowerStr (s : GoStr) : GoStr := s.map Char.toLower

/-- decimal digit printer, fuel-based (`fuel` bounds the number of digits). -/
def natDigitsAux : Nat → Nat → GoStr
  | 0, _ => []
  | _ + 1, 0 => []
  | fuel + 1, n => natDigitsAux fuel (n / 10) ++ [Char.ofNat (48 + n % 10)]

/-- model of `fmt.Sprintf("%d", n)` for a natural number. -/
def natStr (n : Nat) : GoStr := if n = 0 then ['0'] else natDigitsAux (n + 1) n

/-- numeric value of a digit string. -/
def digitsToNat (s : GoStr) : Nat :=
  s.foldl (fun acc c => acc * 10 + (c.toNat - 48)) 0

/-- largest value of a Go `int` on 64-bit targets. -/
def int64Max : Nat := 9223372036854775807

/-- model of `strconv.Atoi` on an all-digits string: fails when empty, non-digit,
or out of the 64-bit int range. -/
def atoiDigits (s : GoStr) : Option Nat :=
  if s ≠ [] ∧ s.all Char.isDigit then
    if digitsToNat s ≤ int64Max then some (digitsToNat s) else none
  else none

-- basic facts about dropWhile used by the trimming lemmas

theorem head_of_dropWhile (p : Char → Bool) (l : GoStr) (a : Char)
    (h : (l.dropWhile p).head? = some a) : p a = false := by
  induction l with
  | nil => simp [List.dropWhile] at h
  | cons b t ih =>
    by_cases hb : p b
    · simp [List.dropWhile, hb] at h
      exact ih h
    · simp [List.dropWhile, hb] at h
      subst h
      simpa using hb

theorem dropWhile_eq_self_of_head (p : Char → Bool) (l : GoStr)
    (h : ∀ a, l.head? = some a → p a = false) : l.dropWhile p = l := by
  cases l with
  | nil => simp
  | cons b t =>
    have hb : p b = false := h b rfl
    simp [List.dropWhile, hb]

theorem dropWhile_idem (p : Char → Bool) (l : GoStr) :
    (l.dropWhile p).dropWhile p = l.dropWhile p := by
  apply dropWhile_eq_self_of_head
  intro a ha
  exact head_of_dropWhile p l a ha

theorem dropWhile_suffix_decomp (p : Char → Bool) (l : GoStr) :
    ∃ pre, pre ++ l.dropWhile p = l := by
  induction l with
  | nil => exact ⟨[], rfl⟩
  | cons b t ih =>
    by_cases hb : p b
    · obtain ⟨pre, hpre⟩ := ih
      exact ⟨b :: pre, by simp [List.dropWhile, hb, hpre]⟩
    · exact ⟨[], by simp [List.dropWhile, hb]⟩

theorem trimR_reverse (s : GoStr) : (trimR s).reverse = s.reverse.dropWhile isSpc := by
  simp [trimR]

theorem trimR_idem (s : GoStr) : trimR (trimR s) = trimR s := by
  simp [trimR, dropWhile_idem]

theorem trimSpace_idem (s : GoStr) : trimSpace (trimSpace s) = trimSpace s := by
  unfold trimSpace
  obtain ⟨pre, hpre⟩ := dropWhile_suffix_decomp isSpc (trimR s)
  have hrev : (trimR s).reverse = ((trimR s).dropWhile isSpc).reverse ++ pre.reverse := by
    conv_lhs => rw [← hpre]
    simp
  have hself : (((trimR s).dropWhile isSpc).reverse).dropWhile isSpc
      = ((trimR s).dropWhile isSpc).reverse := by
    apply dropWhile_eq_self_of_head
    intro a ha
    cases hu : ((trimR s).dropWhile isSpc).reverse with
    | nil => rw [hu] at ha; simp at ha
    | cons c t =>
      rw [hu] at ha
      simp at ha
      have hhead : ((trimR s).reverse).head? = some c := by
        rw [hrev, hu]; simp
      rw [trimR_reverse] at hhead
      have hc := head_of_dropWhile isSpc s.reverse c hhead
      rw [← ha]
      exact hc
  have htrimRu : trimR ((trimR s).dropWhile isSpc) = (trimR s).dropWhile isSpc := by
    show ((((trimR s).dropWhile isSpc).reverse).dropWhile isSpc).reverse
        = (trimR s).dropWhile isSpc
    rw [hself, List.reverse_reverse]
  rw [htrimRu, dropWhile_idem]

theorem trimR_append_space (x : GoStr) (c : Char) (hc : isSpc c = true) :
    trimR (x ++ [c]) = trimR x := by
  unfold trimR
  simp [List.dropWhile, hc]

theorem trimSpace_append_space (x : GoStr) (c : Char) (hc : isSpc c = true) :
    trimSpace (x ++ [c]) = trimSpace x := by
  unfold trimSpace
  rw [trimR_append_space x c hc]

theorem startsWith_append (x y : GoStr) : startsWith (x ++ y) x = true := by
  induction x with
  | nil => cases y <;> simp [startsWith]
  | cons a t ih => simp [startsWith, ih]

theorem containsStr_of_startsWith (s sub : GoStr) (h : startsWith s sub = true) :
    containsStr s sub = true := by
  cases s with
  | nil =>
    cases sub with
    | nil => simp [containsStr]
    | cons b t => simp [startsWith] at h
  | cons a t => simp [containsStr, h]

-- ------------------------------------------------------------------
-- Submitted-job registry (src/unnamed/part_001, submittedJobRegistry)
-- ------------------------------------------------------------------

/-- entry of the submitted-job registry (`submittedJob` in the Go source). -/
structure SubmittedJob where
  jobID : GoStr
  label : GoStr
deriving DecidableEq

instance : Nonempty SubmittedJob := ⟨⟨[], []⟩⟩

instance : Nonempty (GoStr × SubmittedJob) := ⟨([], ⟨[], []⟩)⟩

/-- the registry is a Go map keyed by job id, modelled as an association list
in which keys are unique (map insertion replaces an existing key in place). -/
abbrev JobRegistry := List (GoStr × SubmittedJob)

/-- Go map assignment `m[k] = v`: replace the binding of `k` when present,
append it otherwise. -/
def mapInsert (k : GoStr) (v : SubmittedJob) : JobRegistry → JobRegistry
  | [] => [(k, v)]
  | (k', v') :: rest => if k' = k then (k, v) :: rest else (k', v') :: mapInsert k v rest

/-- model of `submittedJobRegistry.add`: trims the job id, ignores blank ids,
and stores the entry under the trimmed id. -/
def registryAdd (jobID label : GoStr) (r : JobRegistry) : JobRegistry :=
  let id := trimSpace jobID
  if id = [] then r else mapInsert id { jobID := id, label := label } r

/-- model of `submittedJobRegistry.snapshot`: the list of stored entries. -/
def registrySnapshot (r : JobRegistry) : List SubmittedJob := r.map Prod.snd

/-- keys of the registry map. -/
def registryKeys (r : JobRegistry) : List GoStr := r.map Prod.fst

/-- well-formedness of the registry: every entry is keyed by its own job id,
ids are non-blank and already trimmed, and keys are unique. -/
def RegistryWF (r : JobRegistry) : Prop :=
  (∀ p ∈ r, p.2.jobID = p.1 ∧ p.1 ≠ [] ∧ trimSpace p.1 = p.1) ∧ (registryKeys r).Nodup

theorem mapInsert_mem (k : GoStr) (v : SubmittedJob) :
    ∀ (r : JobRegistry) (p : GoStr × SubmittedJob),
      p ∈ mapInsert k v r → p = (k, v) ∨ p ∈ r := by
  intro r
  induction r with
  | nil => intro p h; simpa [mapInsert] using h
  | cons q rest ih =>
    obtain ⟨k', v'⟩ := q
    intro p h
    by_cases hk : k' = k
    · simp only [mapInsert, if_pos hk, List.mem_cons] at h
      rcases h with h | h
      · exact Or.inl h
      · exact Or.inr (List.mem_cons_of_mem _ h)
    · simp only [mapInsert, if_neg hk, List.mem_cons] at h
      rcases h with h | h
      · exact Or.inr (by rw [h]; exact List.mem_cons_self _ rest)
      · rcases ih p h with h' | h'
        · exact Or.inl h'
        · exact Or.inr (List.mem_cons_of_mem _ h')

theorem mapInsert_keys (k : GoStr) (v : SubmittedJob) :
    ∀ r : JobRegistry,
      registryKeys (mapInsert k v r) =
        if k ∈ registryKeys r then registryKeys r else registryKeys r ++ [k] := by
  intro r
  induction r with
  | nil => simp [mapInsert, registryKeys]
  | cons q rest ih =>
    obtain ⟨k', v'⟩ := q
    by_cases hk : k' = k
    · simp [mapInsert, if_pos hk, registryKeys, hk]
    · simp only [mapInsert, if_neg hk, registryKeys, List.map_cons] at ih ⊢
      by_cases hmem : k ∈ rest.map Prod.fst
      · simp [hmem, ih, Ne.symm hk]
      · simp [hmem, ih, Ne.symm hk]

theorem mapInsert_length (k : GoStr) (v : SubmittedJob) :
    ∀ r : JobRegistry, k ∈ registryKeys r → (mapInsert k v r).length = r.length := by
  intro r
  induction r with
  | nil => intro h; simp [registryKeys] at h
  | cons q rest ih =>
    obtain ⟨k', v'⟩ := q
    intro h
    by_cases hk : k' = k
    · simp [mapInsert, if_pos hk]
    · simp only [registryKeys, List.map_cons, List.mem_cons] at h
      rcases h with h | h
      · exact absurd h.symm hk
      · simp only [mapInsert, if_neg hk, List.length_cons]
        rw [ih (by simpa [registryKeys] using h)]

/-- C10: the submitted-job registry never holds a blank key.  `add` is a no-op
on blank (all-whitespace) job ids; a non-blank id is stored under its trimmed
form, so re-adding an id overwrites instead of duplicating; the empty registry
is well-formed, `add` preserves well-formedness, and every snapshot entry of a
well-formed registry carries a non-empty job id equal to its own trim. -/
theorem registry_never_blank :
    (∀ jobID label r, trimSpace jobID = [] → registryAdd jobID label r = r) ∧
    (∀ jobID label r, trimSpace jobID ∈ registryKeys r →
        (registryAdd jobID label r).length = r.length) ∧
    RegistryWF [] ∧
    (∀ jobID label r, RegistryWF r → RegistryWF (registryAdd jobID label r)) ∧
    (∀ r, RegistryWF r → ∀ j ∈ registrySnapshot r, j.jobID ≠ [] ∧ trimSpace j.jobID = j.jobID) := by
  refine ⟨?_, ?_, ?_, ?_, ?_⟩
  · intro jobID label r h
    simp [registryAdd, h]
  · intro jobID label r h
    by_cases hb : trimSpace jobID = []
    · simp [registryAdd, hb]
    · simp only [registryAdd, if_neg hb]
      exact mapInsert_length _ _ r h
  · exact ⟨by simp, by simp [registryKeys]⟩
  · intro jobID label r hwf
    by_cases hb : trimSpace jobID = []
    · simpa [registryAdd, hb] using hwf
    · simp only [registryAdd, if_neg hb]
      constructor
      · intro p hp
        rcases mapInsert_mem _ _ _ _ hp with h | h
        · rw [h]
          exact ⟨rfl, hb, trimSpace_idem jobID⟩
        · exact hwf.1 p h
      · rw [mapInsert_keys]
        by_cases hk : trimSpace jobID ∈ registryKeys r
        · simpa [hk] using hwf.2
        · simp only [if_neg hk]
          rw [List.nodup_append]
          exact ⟨hwf.2, List.nodup_singleton _, by simpa using hk⟩
  · intro r hwf j hj
    simp only [registrySnapshot, List.mem_map] at hj
    obtain ⟨p, hp, hpj⟩ := hj
    obtain ⟨hid, hne, htrim⟩ := hwf.1 p hp
    subst hpj
    rw [hid]
    exact ⟨hne, htrim⟩

/-- C10 witness: the invariant theorem applied at concrete inputs, here the
blank-id no-op conjunct at a whitespace-only job id. -/
theorem registry_never_blank_witness :
    registryAdd (gs "  ") (gs "lbl") [] = [] :=
  registry_never_blank.1 (gs "  ") (gs "lbl") [] (by decide)

-- ------------------------------------------------------------------
-- Transport retry classifier (src/internal/client/client.go,
-- isRetryableRequestErr)
-- ------------------------------------------------------------------

/-- error classes reachable by `isRetryableRequestErr`: an `httpStatusError`
(matched by `errors.As` before anything else), `io.EOF`, a `net.Error`
with its `Timeout()` report, or any other error carrying only a message. -/
inductive ReqErr where
  | statusErr (code : Nat) (msg : GoStr)
  | eofErr
  | netErr (isTimeout : Bool) (msg : GoStr)
  | otherErr (msg : GoStr)

/-- the retryable message fragments scanned case-insensitively, in source order. -/
def retryableKeys : List GoStr :=
  [gs "timeout", gs "tls handshake", gs "connection reset", gs "connection refused",
   gs "broken pipe", gs "unexpected eof", gs "eof", gs "service unavailable",
   gs "bad gateway", gs "gateway timeout"]

/-- the loop over `retryable` in the Go source: does the lowercased message
contain one of the fragments. -/
def msgHasRetryableKey (msg : GoStr) : Bool :=
  retryableKeys.any (fun k => containsStr (lowerStr msg) k)

/-- model of `isRetryableRequestErr`: status errors are decided purely by
their code; then `io.EOF`; then net-error timeouts; then the message scan. -/
def isRetryableRequestErr : ReqErr → Bool
  | .statusErr code _ =>
    code == 408 || code == 425 || code == 429 || code == 500 ||
    code == 502 || code == 503 || code == 504
  | .eofErr => true
  | .netErr isTimeout msg => if isTimeout then true else msgHasRetryableKey msg
  | .otherErr msg => msgHasRetryableKey msg

/-- the retryable HTTP status codes named by the specification. -/
def retryableStatusCodes : List Nat := [408, 425, 429, 500, 502, 503, 504]

/-- the claim's characterisation of retryability, written from the spec's
words: status errors retry iff the code is in the set, regardless of the
message; non-status errors retry iff EOF, a timeout-reporting net error, or a
case-insensitive substring hit on the message. -/
def ClaimRetryable : ReqErr → Prop
  | .statusErr code _ => code ∈ retryableStatusCodes
  | .eofErr => True
  | .netErr isTimeout msg =>
    isTimeout = true ∨ ∃ k ∈ retryableKeys, containsStr (lowerStr msg) k = true
  | .otherErr msg => ∃ k ∈ retryableKeys, containsStr (lowerStr msg) k = true

/-- C6: `isRetryableRequestErr` retries exactly the errors described by the
spec: HTTP status errors with code in {408,425,429,500,502,503,504} (and no
others, whatever their message), and otherwise io.EOF, net timeouts, or
messages containing one of the listed fragments case-insensitively. -/
theorem isRetryableRequestErr_spec (e : ReqErr) :
    isRetryableRequestErr e = true ↔ ClaimRetryable e := by
  cases e with
  | statusErr code msg =>
    simp [isRetryableRequestErr, ClaimRetryable, retryableStatusCodes]
    tauto
  | eofErr => simp [isRetryableRequestErr, ClaimRetryable]
  | netErr isTimeout msg =>
    cases isTimeout with
    | true => simp [isRetryableRequestErr, ClaimRetryable]
    | false =>
      simp [isRetryableRequestErr, ClaimRetryable, msgHasRetryableKey, List.any_eq_true]
  | otherErr msg =>
    simp [isRetryableRequestErr, ClaimRetryable, msgHasRetryableKey, List.any_eq_true]

-- ------------------------------------------------------------------
-- Input discovery (src/internal/input/discovery.go, readIfRequirement)
-- ------------------------------------------------------------------

/-- the first-line marker identifying a requirements file. -/
def markerStr : GoStr := gs "===Listing Requirements==="

/-- the UTF-8 byte-order mark, stripped from the first line. -/
def bomStr : GoStr := gs "﻿"

/-- model of `bufio.Reader.ReadString('\n')` on the whole file content:
returns the first line including its newline (or the whole input when no
newline exists, the tolerated io.EOF case) together with the remainder. -/
def readLine1 : GoStr → GoStr × GoStr
  | [] => ([], [])
  | c :: t =>
    if c = '\n' then ([c], t)
    else
      let p := readLine1 t
      (c :: p.1, p.2)

/-- model of `readIfRequirement` on the file content: `some rest` when the
file qualifies (the io.ReadAll of the remaining reader), `none` when the
file is skipped without error. -/
def readIfRequirement (content : GoStr) : Option GoStr :=
  let p := readLine1 content
  if trimSpace (trimPre p.1 bomStr) = markerStr then some p.2 else none

/-- the spec's first line: everything before the first newline. -/
def specFirstLine (s : GoStr) : GoStr := s.takeWhile (fun c => !(c == '\n'))

/-- the spec's qualification test: the first line, after stripping a leading
BOM and trimming surrounding whitespace, equals the marker exactly. -/
def specQualifies (s : GoStr) : Bool :=
  trimSpace (trimPre (specFirstLine s) bomStr) == markerStr

/-- the spec's returned content: everything after the first line, the
trailing newline discarded along with the line itself. -/
def specContent (s : GoStr) : GoStr :=
  (s.dropWhile (fun c => !(c == '\n'))).drop 1

theorem readLine1_splits (s : GoStr) :
    readLine1 s =
      (specFirstLine s ++ (s.dropWhile (fun c => !(c == '\n'))).take 1, specContent s) := by
  induction s with
  | nil => simp [readLine1, specFirstLine, specContent]
  | cons c t ih =>
    by_cases hc : c = '\n'
    · subst hc
      simp [readLine1, specFirstLine, specContent, List.takeWhile, List.dropWhile]
    · have hne : (c == '\n') = false := by
        simp [beq_iff_eq]
        exact hc
      simp [readLine1, if_neg hc, ih, specFirstLine, specContent,
        List.takeWhile, List.dropWhile, hne]

theorem trimPre_marker_newline (x : GoStr) :
    trimSpace (trimPre (x ++ ['\n']) bomStr) = trimSpace (trimPre x bomStr) := by
  cases x with
  | nil => simp [trimPre, bomStr, gs, startsWith, trimSpace, trimR, List.dropWhile, isSpc]
  | cons c t =>
    by_cases hb : startsWith (c :: t) bomStr = true
    · have hb' : startsWith ((c :: t) ++ ['\n']) bomStr = true := by
        cases hcb : (c == '﻿') with
        | false => simp [bomStr, gs, startsWith, hcb] at hb
        | true => simp [bomStr, gs, startsWith, hcb] at hb ⊢
      have hlen : bomStr.length = 1 := by decide
      rw [trimPre, if_pos hb', trimPre, if_pos hb, hlen]
      simp only [List.cons_append, List.drop_succ_cons, List.drop_zero]
      exact trimSpace_append_space t '\n' (by decide)
    · have hb' : ¬ startsWith ((c :: t) ++ ['\n']) bomStr = true := by
        cases hcb : (c == '﻿') with
        | false => simp [bomStr, gs, startsWith, hcb]
        | true => simp [bomStr, gs, startsWith, hcb] at hb ⊢
      rw [trimPre, if_neg hb', trimPre, if_neg hb]
      exact trimSpace_append_space (c :: t) '\n' (by decide)

/-- C7: a file qualifies iff its first line, after stripping a leading UTF-8
BOM and trimming surrounding whitespace, equals the marker exactly; the
returned content is exactly the bytes after the first line (its trailing
newline discarded with it); non-qualifying files yield `none` (skipped,
no error). -/
theorem readIfRequirement_spec (content : GoStr) :
    readIfRequirement content =
      if specQualifies content then some (specContent content) else none := by
  unfold readIfRequirement specQualifies
  rw [readLine1_splits]
  simp only []
  have hkey :
      trimSpace (trimPre (specFirstLine content ++
        ((content.dropWhile (fun c => !(c == '\n'))).take 1)) bomStr)
      = trimSpace (trimPre (specFirstLine content) bomStr) := by
    cases hd : content.dropWhile (fun c => !(c == '\n')) with
    | nil => simp
    | cons c rest =>
      have hc : c = '\n' := by
        have := head_of_dropWhile (fun c => !(c == '\n')) content c (by rw [hd]; rfl)
        simpa [beq_iff_eq] using this
      subst hc
      simpa using trimPre_marker_newline (specFirstLine content)
  rw [hkey]
  by_cases h : trimSpace (trimPre (specFirstLine content) bomStr) = markerStr
  · simp [h]
  · simp [h, beq_iff_eq]

-- ------------------------------------------------------------------
-- Validation-error reformatting (src/unnamed/part_001,
-- formatValidationError / formatLengthConstraintRange)
-- ------------------------------------------------------------------

/-- whitespace class of Go regexp `\s` ( `[\t\n\f\r ]` ). -/
def isSpcRe (c : Char) : Bool :=
  c == '\t' || c == '\n' || c == '\x0c' || c == '\r' || c == ' '

/-- consume a literal, or fail. -/
def dropLit (s pat : GoStr) : Option GoStr :=
  if startsWith s pat then some (s.drop pat.length) else none

/-- consume a maximal non-empty digit run (regex `(\d+)` where the following
literal is a non-digit, so greedy matching is the unique match). -/
def takeDigits1 (s : GoStr) : Option (GoStr × GoStr) :=
  let d := s.takeWhile Char.isDigit
  if d = [] then none else some (d, s.dropWhile Char.isDigit)

/-- matcher for the regex tail
`\s*(\d+)（规则区间 \[(\d+),(\d+)\]，容差区间 \[(\d+),(\d+)\]）$`
starting right after the literal `长度不满足约束:`.  Every `\d+` is followed
by a non-digit literal and `\s*` by a digit, so the greedy matcher below is
equivalent to the anchored regex. -/
def matchConstraintBody (s : GoStr) : Option (GoStr × GoStr × GoStr × GoStr × GoStr) := do
  let s := s.dropWhile isSpcRe
  let (a, s) ← takeDigits1 s
  let s ← dropLit s (gs "（规则区间 [")
  let (rmin, s) ← takeDigits1 s
  let s ← dropLit s (gs ",")
  let (rmax, s) ← takeDigits1 s
  let s ← dropLit s (gs "]，容差区间 [")
  let (tmin, s) ← takeDigits1 s
  let s ← dropLit s (gs ",")
  let (tmax, s) ← takeDigits1 s
  let s ← dropLit s (gs "]）")
  if s = [] then some (a, rmin, rmax, tmin, tmax) else none

/-- matcher for `textLengthConstraintPattern`
(`^长度不满足约束:\s*(\d+)（…）$`). -/
def matchTextConstraint (s : GoStr) : Option (GoStr × GoStr × GoStr × GoStr × GoStr) := do
  let s ← dropLit s (gs "长度不满足约束:")
  matchConstraintBody s

/-- matcher for `lineLengthConstraintPattern`
(`^第(\d+)条长度不满足约束:\s*(\d+)（…）$`). -/
def matchLineConstraint (s : GoStr) :
    Option (GoStr × (GoStr × GoStr × GoStr × GoStr × GoStr)) := do
  let s ← dropLit s (gs "第")
  let (n, s) ← takeDigits1 s
  let s ← dropLit s (gs "条长度不满足约束:")
  let body ← matchConstraintBody s
  some (n, body)

/-- model of `formatLengthConstraintRange`: parse the five captured digit
strings with Atoi and render the bracketed range, branching on
`actual < tolMin`; any Atoi failure (out-of-range value) falls back to the
`?` form. -/
def formatLengthConstraintRange (aS rminS rmaxS tminS tmaxS : GoStr) : GoStr :=
  match atoiDigits aS, atoiDigits rminS, atoiDigits rmaxS,
      atoiDigits tminS, atoiDigits tmaxS with
  | some a, some rmin, some rmax, some tmin, some tmax =>
    if a < tmin then
      natStr a ++ gs " < [" ++ natStr tmin ++ gs "[" ++ natStr rmin ++ gs "," ++
        natStr rmax ++ gs "]" ++ natStr tmax ++ gs "] 低于下限"
    else
      gs "[" ++ natStr tmin ++ gs "[" ++ natStr rmin ++ gs "," ++ natStr rmax ++
        gs "]" ++ natStr tmax ++ gs "] < " ++ natStr a ++ gs " 高于上限"
  | _, _, _, _, _ =>
    aS ++ gs " ? [" ++ tminS ++ gs "[" ++ rminS ++ gs "," ++ rmaxS ++ gs "]" ++ tmaxS ++ gs "]"

/-- model of `formatValidationError`: trim, handle empty, then try the
`第N条` pattern, then the plain pattern, else return the text unchanged. -/
def formatValidationError (errText : GoStr) : GoStr :=
  let e := trimSpace errText
  if e = [] then gs "未知错误"
  else
    match matchLineConstraint e with
    | some (n, (a, rmin, rmax, tmin, tmax)) =>
      gs "第" ++ n ++ gs "条长度不满足约束: " ++
        formatLengthConstraintRange a rmin rmax tmin tmax
    | none =>
      match matchTextConstraint e with
      | some (a, rmin, rmax, tmin, tmax) =>
        gs "长度不满足约束: " ++ formatLengthConstraintRange a rmin rmax tmin tmax
      | none => e

/-- the bracketed range form described by the spec, chosen by comparing the
actual length against the tolerance minimum. -/
def specLengthRangeForm (aN rminN rmaxN tminN tmaxN : Nat) : GoStr :=
  if aN < tminN then
    natStr aN ++ gs " < [" ++ natStr tminN ++ gs "[" ++ natStr rminN ++ gs "," ++
      natStr rmaxN ++ gs "]" ++ natStr tmaxN ++ gs "] 低于下限"
  else
    gs "[" ++ natStr tminN ++ gs "[" ++ natStr rminN ++ gs "," ++ natStr rmaxN ++
      gs "]" ++ natStr tmaxN ++ gs "] < " ++ natStr aN ++ gs " 高于上限"

theorem startsWith_head_eq (a : Char) (s : GoStr) (b : Char) (t : GoStr)
    (h : startsWith (a :: s) (b :: t) = true) : a = b := by
  simp [startsWith] at h
  exact h.1

theorem matchTextConstraint_head (e : GoStr) (v : GoStr × GoStr × GoStr × GoStr × GoStr)
    (h : matchTextConstraint e = some v) : ∃ t, e = '长' :: t := by
  cases hs : startsWith e (gs "长度不满足约束:") with
  | false =>
    rw [matchTextConstraint, dropLit, if_neg (by simp [hs])] at h
    simp at h
  | true =>
    cases e with
    | nil =>
      have : gs "长度不满足约束:" = '长' :: gs "度不满足约束:" := by decide
      rw [this] at hs
      simp [startsWith] at hs
    | cons a t =>
      have hcons : gs "长度不满足约束:" = '长' :: gs "度不满足约束:" := by decide
      rw [hcons] at hs
      have := startsWith_head_eq a t '长' (gs "度不满足约束:") hs
      exact ⟨t, by rw [this]⟩

theorem matchLineConstraint_head (e : GoStr)
    (v : GoStr × (GoStr × GoStr × GoStr × GoStr × GoStr))
    (h : matchLineConstraint e = some v) : ∃ t, e = '第' :: t := by
  cases hs : startsWith e (gs "第") with
  | false =>
    rw [matchLineConstraint] at h
    rw [dropLit, if_neg (by simp [hs])] at h
    simp at h
  | true =>
    cases e with
    | nil =>
      have : gs "第" = ['第'] := by decide
      rw [this] at hs
      simp [startsWith] at hs
    | cons a t =>
      have hcons : gs "第" = ['第'] := by decide
      rw [hcons] at hs
      have := startsWith_head_eq a t '第' [] hs
      exact ⟨t, by rw [this]⟩

theorem matchLineConstraint_none_of_head (a : Char) (t : GoStr) (ha : a ≠ '第') :
    matchLineConstraint (a :: t) = none := by
  have hs : startsWith (a :: t) (gs "第") = false := by
    have hcons : gs "第" = ['第'] := by decide
    rw [hcons]
    simp [startsWith]
    exact ha
  rw [matchLineConstraint]
  rw [dropLit, if_neg (by simp [hs])]
  rfl

/-- C8 counterexample: on the S8 input the code keeps the original
`长度不满足约束: ` prefix in front of the bracketed range form, so the claimed
render `[430[450,1500]1520] < 1718 高于上限` is not the output. -/
theorem formatValidationError_s8_counterexample :
    formatValidationError
        (gs "长度不满足约束: 1718（规则区间 [450,1500]，容差区间 [430,1520]）")
      = gs "长度不满足约束: [430[450,1500]1520] < 1718 高于上限"
    ∧ formatValidationError
        (gs "长度不满足约束: 1718（规则区间 [450,1500]，容差区间 [430,1520]）")
      ≠ gs "[430[450,1500]1520] < 1718 高于上限" := by
  constructor
  · decide
  · decide

/-- C8 (amended): for every error string whose trim matches one of the two
length-constraint patterns (with numbers in the Atoi range), the output is the
matched prefix — `长度不满足约束: ` or `第N条长度不满足约束: ` — followed by the
bracketed range form, branching on `actual < tolMin`; on the S8 input this is
`长度不满足约束: [430[450,1500]1520] < 1718 高于上限`. -/
theorem formatValidationError_amended :
    (∀ errText a rmin rmax tmin tmax aN rminN rmaxN tminN tmaxN,
      matchTextConstraint (trimSpace errText) = some (a, rmin, rmax, tmin, tmax) →
      atoiDigits a = some aN → atoiDigits rmin = some rminN →
      atoiDigits rmax = some rmaxN → atoiDigits tmin = some tminN →
      atoiDigits tmax = some tmaxN →
      formatValidationError errText =
        gs "长度不满足约束: " ++ specLengthRangeForm aN rminN rmaxN tminN tmaxN) ∧
    (∀ errText n a rmin rmax tmin tmax aN rminN rmaxN tminN tmaxN,
      matchLineConstraint (trimSpace errText) = some (n, (a, rmin, rmax, tmin, tmax)) →
      atoiDigits a = some aN → atoiDigits rmin = some rminN →
      atoiDigits rmax = some rmaxN → atoiDigits tmin = some tminN →
      atoiDigits tmax = some tmaxN →
      formatValidationError errText =
        gs "第" ++ n ++ gs "条长度不满足约束: " ++
          specLengthRangeForm aN rminN rmaxN tminN tmaxN) := by
  constructor
  · intro errText a rmin rmax tmin tmax aN rminN rmaxN tminN tmaxN
    intro hmatch hA hRmin hRmax hTmin hTmax
    obtain ⟨t, he⟩ := matchTextConstraint_head _ _ hmatch
    have hline : matchLineConstraint (trimSpace errText) = none := by
      rw [he]
      exact matchLineConstraint_none_of_head '长' t (by decide)
    rw [formatValidationError]
    simp only [he, hline, hmatch, reduceCtorEq, if_neg, List.cons_ne_nil,
      not_false_eq_true]
    rw [← he, hline, hmatch]
    simp only [formatLengthConstraintRange, hA, hRmin, hRmax, hTmin, hTmax,
      specLengthRangeForm]
  · intro errText n a rmin rmax tmin tmax aN rminN rmaxN tminN tmaxN
    intro hmatch hA hRmin hRmax hTmin hTmax
    obtain ⟨t, he⟩ := matchLineConstraint_head _ _ hmatch
    rw [formatValidationError]
    simp only [he, hmatch, reduceCtorEq, if_neg, List.cons_ne_nil, not_false_eq_true]
    rw [← he, hmatch]
    simp only [formatLengthConstraintRange, hA, hRmin, hRmax, hTmin, hTmax,
      specLengthRangeForm]

/-- C8 amended witness: the amended theorem applied to the S8 input. -/
theorem formatValidationError_amended_witness :
    formatValidationError
        (gs "长度不满足约束: 1718（规则区间 [450,1500]，容差区间 [430,1520]）")
      = gs "长度不满足约束: " ++ specLengthRangeForm 1718 450 1500 430 1520 :=
  formatValidationError_amended.1
    (gs "长度不满足约束: 1718（规则区间 [450,1500]，容差区间 [430,1520]）")
    (gs "1718") (gs "450") (gs "1500") (gs "430") (gs "1520")
    1718 450 1500 430 1520
    (by decide) (by decide) (by decide) (by decide) (by decide) (by decide)

-- ------------------------------------------------------------------
-- Two-stage signature verification (src/unnamed/part_011,
-- VerifyArchiveSignatureWithBundledKeyOpenSSL)
-- ------------------------------------------------------------------

/-- oracles for the effectful sub-operations of the verifier: the root-key
load (`ensureRootPublicKey` + `os.ReadFile`), the in-archive key extraction
(`extractFileFromTarGz`, by path), base64 decoding, the archive read, and the
RSA-SHA256-PKCS1v15 check (`verifySignature`, taking public-key PEM, payload
and signature). -/
structure VerifyEnv where
  rootKey : Except GoStr GoStr
  extract : GoStr → Except GoStr GoStr
  b64decode : GoStr → Except GoStr GoStr
  archiveBytes : Except GoStr GoStr
  rsaVerify : GoStr → GoStr → GoStr → Except GoStr Unit

/-- model of `VerifyArchiveSignatureWithBundledKeyOpenSSL`: blank-field
checks in order, root key load, signing-key extraction, key-signature decode
and check against the root key, archive-signature decode and check against
the just-verified signing key. -/
def verifyArchiveSignatureWithBundledKey (env : VerifyEnv)
    (archiveSignatureBase64 signingPublicKeyPathInArchive
     signingPublicKeySignatureBase64 : GoStr) : Except GoStr Unit :=
  if trimSpace archiveSignatureBase64 = [] then .error (gs "规则签名缺失")
  else if trimSpace signingPublicKeyPathInArchive = [] then
    .error (gs "规则签名公钥路径缺失")
  else if trimSpace signingPublicKeySignatureBase64 = [] then
    .error (gs "规则签名公钥签名缺失")
  else
    match env.rootKey with
    | .error e => .error e
    | .ok rootPublicKeyBytes =>
      match env.extract signingPublicKeyPathInArchive with
      | .error e => .error e
      | .ok signingPublicKeyBytes =>
        match env.b64decode signingPublicKeySignatureBase64 with
        | .error e => .error (gs "解析签名公钥签名失败: " ++ e)
        | .ok keySig =>
          match env.rsaVerify rootPublicKeyBytes signingPublicKeyBytes keySig with
          | .error e => .error (gs "规则签名公钥验签失败: " ++ e)
          | .ok _ =>
            match env.b64decode archiveSignatureBase64 with
            | .error e => .error (gs "解析规则包签名失败: " ++ e)
            | .ok archiveSig =>
              match env.archiveBytes with
              | .error e => .error (gs "读取规则包失败: " ++ e)
              | .ok archive =>
                match env.rsaVerify signingPublicKeyBytes archive archiveSig with
                | .error e => .error (gs "规则包验签失败: " ++ e)
                | .ok _ => .ok ()

/-- the claim's reading of a fully successful verification: all three fields
non-blank and every subsequent stage succeeding, the archive signature being
checked against the signing key that the root key just verified. -/
def VerifyStagesPass (env : VerifyEnv)
    (a p k : GoStr) : Prop :=
  trimSpace a ≠ [] ∧ trimSpace p ≠ [] ∧ trimSpace k ≠ [] ∧
  ∃ rootKeyBytes signingKeyBytes keySig archiveSig archive,
    env.rootKey = .ok rootKeyBytes ∧
    env.extract p = .ok signingKeyBytes ∧
    env.b64decode k = .ok keySig ∧
    env.rsaVerify rootKeyBytes signingKeyBytes keySig = .ok () ∧
    env.b64decode a = .ok archiveSig ∧
    env.archiveBytes = .ok archive ∧
    env.rsaVerify signingKeyBytes archive archiveSig = .ok ()

/-- C1: the verifier checks its three fields in order with three distinct
errors; with the fields present, a root-key check failure surfaces as an
error containing 规则签名公钥验签失败 before the archive signature is ever
consulted, an archive check failure as a distinct error containing
规则包验签失败, and the result is `ok` exactly when every stage passes. -/
theorem verifyArchiveSignature_two_stage :
    (∀ env a p k, trimSpace a = [] →
      verifyArchiveSignatureWithBundledKey env a p k = .error (gs "规则签名缺失")) ∧
    (∀ env a p k, trimSpace a ≠ [] → trimSpace p = [] →
      verifyArchiveSignatureWithBundledKey env a p k = .error (gs "规则签名公钥路径缺失")) ∧
    (∀ env a p k, trimSpace a ≠ [] → trimSpace p ≠ [] → trimSpace k = [] →
      verifyArchiveSignatureWithBundledKey env a p k = .error (gs "规则签名公钥签名缺失")) ∧
    (gs "规则签名缺失" ≠ gs "规则签名公钥路径缺失" ∧
     gs "规则签名缺失" ≠ gs "规则签名公钥签名缺失" ∧
     gs "规则签名公钥路径缺失" ≠ gs "规则签名公钥签名缺失") ∧
    (∀ env a p k e rootKeyBytes signingKeyBytes keySig,
      trimSpace a ≠ [] → trimSpace p ≠ [] → trimSpace k ≠ [] →
      env.rootKey = .ok rootKeyBytes →
      env.extract p = .ok signingKeyBytes →
      env.b64decode k = .ok keySig →
      env.rsaVerify rootKeyBytes signingKeyBytes keySig = .error e →
      verifyArchiveSignatureWithBundledKey env a p k
          = .error (gs "规则签名公钥验签失败: " ++ e) ∧
        containsStr (gs "规则签名公钥验签失败: " ++ e) (gs "规则签名公钥验签失败") = true) ∧
    (∀ env a p k e rootKeyBytes signingKeyBytes keySig archiveSig archive,
      trimSpace a ≠ [] → trimSpace p ≠ [] → trimSpace k ≠ [] →
      env.rootKey = .ok rootKeyBytes →
      env.extract p = .ok signingKeyBytes →
      env.b64decode k = .ok keySig →
      env.rsaVerify rootKeyBytes signingKeyBytes keySig = .ok () →
      env.b64decode a = .ok archiveSig →
      env.archiveBytes = .ok archive →
      env.rsaVerify signingKeyBytes archive archiveSig = .error e →
      verifyArchiveSignatureWithBundledKey env a p k
          = .error (gs "规则包验签失败: " ++ e) ∧
        containsStr (gs "规则包验签失败: " ++ e) (gs "规则包验签失败") = true) ∧
    (∀ e1 e2 : GoStr,
      gs "规则签名公钥验签失败: " ++ e1 ≠ gs "规则包验签失败: " ++ e2) ∧
    (∀ env a p k,
      verifyArchiveSignatureWithBundledKey env a p k = .ok () ↔
        VerifyStagesPass env a p k) := by
  refine ⟨?_, ?_, ?_, ⟨by decide, by decide, by decide⟩, ?_, ?_, ?_, ?_⟩
  · intro env a p k h
    simp [verifyArchiveSignatureWithBundledKey, h]
  · intro env a p k ha hp
    simp [verifyArchiveSignatureWithBundledKey, ha, hp]
  · intro env a p k ha hp hk
    simp [verifyArchiveSignatureWithBundledKey, ha, hp, hk]
  · intro env a p k e rootKeyBytes signingKeyBytes keySig ha hp hk hroot hext hb64 hrsa
    constructor
    · simp [verifyArchiveSignatureWithBundledKey, ha, hp, hk, hroot, hext, hb64, hrsa]
    · have hsplit : gs "规则签名公钥验签失败: " = gs "规则签名公钥验签失败" ++ gs ": " := by
        decide
      rw [hsplit, List.append_assoc]
      exact containsStr_of_startsWith _ _ (startsWith_append _ _)
  · intro env a p k e rootKeyBytes signingKeyBytes keySig archiveSig archive
    intro ha hp hk hroot hext hb64k hrsa1 hb64a harch hrsa2
    constructor
    · simp [verifyArchiveSignatureWithBundledKey, ha, hp, hk, hroot, hext, hb64k,
        hrsa1, hb64a, harch, hrsa2]
    · have hsplit : gs "规则包验签失败: " = gs "规则包验签失败" ++ gs ": " := by decide
      rw [hsplit, List.append_assoc]
      exact containsStr_of_startsWith _ _ (startsWith_append _ _)
  · intro e1 e2 h
    have h3 : (gs "规则签名公钥验签失败: " ++ e1).get? 2 = (gs "规则包验签失败: " ++ e2).get? 2 := by
      rw [h]
    simp [gs] at h3
  · intro env a p k
    constructor
    · intro h
      by_cases ha : trimSpace a = []
      · simp [verifyArchiveSignatureWithBundledKey, ha] at h
      by_cases hp : trimSpace p = []
      · simp [verifyArchiveSignatureWithBundledKey, ha, hp] at h
      by_cases hk : trimSpace k = []
      · simp [verifyArchiveSignatureWithBundledKey, ha, hp, hk] at h
      refine ⟨ha, hp, hk, ?_⟩
      cases hroot : env.rootKey with
      | error e => simp [verifyArchiveSignatureWithBundledKey, ha, hp, hk, hroot] at h
      | ok rootKeyBytes =>
        cases hext : env.extract p with
        | error e =>
          simp [verifyArchiveSignatureWithBundledKey, ha, hp, hk, hroot, hext] at h
        | ok signingKeyBytes =>
          cases hb64k : env.b64decode k with
          | error e =>
            simp [verifyArchiveSignatureWithBundledKey, ha, hp, hk, hroot, hext,
              hb64k] at h
          | ok keySig =>
            cases hrsa1 : env.rsaVerify rootKeyBytes signingKeyBytes keySig with
            | error e =>
              simp [verifyArchiveSignatureWithBundledKey, ha, hp, hk, hroot, hext,
                hb64k, hrsa1] at h
            | ok u =>
              cases u
              cases hb64a : env.b64decode a with
              | error e =>
                simp [verifyArchiveSignatureWithBundledKey, ha, hp, hk, hroot, hext,
                  hb64k, hrsa1, hb64a] at h
              | ok archiveSig =>
                cases harch : env.archiveBytes with
                | error e =>
                  simp [verifyArchiveSignatureWithBundledKey, ha, hp, hk, hroot, hext,
                    hb64k, hrsa1, hb64a, harch] at h
                | ok archive =>
                  cases hrsa2 : env.rsaVerify signingKeyBytes archive archiveSig with
                  | error e =>
                    simp [verifyArchiveSignatureWithBundledKey, ha, hp, hk, hroot,
                      hext, hb64k, hrsa1, hb64a, harch, hrsa2] at h
                  | ok u2 =>
                    cases u2
                    exact ⟨rootKeyBytes, signingKeyBytes, keySig, archiveSig, archive,
                      rfl, rfl, rfl, hrsa1, rfl, rfl, hrsa2⟩
    · rintro ⟨ha, hp, hk, rootKeyBytes, signingKeyBytes, keySig, archiveSig, archive,
        hroot, hext, hb64k, hrsa1, hb64a, harch, hrsa2⟩
      simp [verifyArchiveSignatureWithBundledKey, ha, hp, hk, hroot, hext, hb64k,
        hrsa1, hb64a, harch, hrsa2]

/-- an all-succeeding oracle environment used to witness the verifier theorem. -/
def verifyEnvOk : VerifyEnv :=
  { rootKey := .ok (gs "rootpem")
    extract := fun _ => .ok (gs "signpem")
    b64decode := fun s => .ok s
    archiveBytes := .ok (gs "archive")
    rsaVerify := fun _ _ _ => .ok () }

/-- C1 witness: the blank-archive-signature conjunct of the verifier theorem
at a concrete whitespace-only field. -/
theorem verifyArchiveSignature_two_stage_witness :
    verifyArchiveSignatureWithBundledKey verifyEnvOk (gs " ") (gs "tenant/keys/signing_public.pem")
        (gs "c2ln") = .error (gs "规则签名缺失") :=
  verifyArchiveSignature_two_stage.1 verifyEnvOk (gs " ")
    (gs "tenant/keys/signing_public.pem") (gs "c2ln") (by decide)

-- ------------------------------------------------------------------
-- Per-tenant cache state persistence (src/internal/rules/location.go,
-- SaveState and friends)
-- ------------------------------------------------------------------

/-- the persisted `CacheState` record ({rules_version, manifest_sha256,
archive_path}). -/
structure CacheState where
  rulesVersion : GoStr
  manifestSHA : GoStr
  archivePath : GoStr
deriving DecidableEq

/-- model of `filepath.Join` on already-clean segments, which is how the rules
store composes its paths. -/
def pathJoin (a b : GoStr) : GoStr := a ++ gs "/" ++ b

/-- model of `sanitizeTenantID`: trim; reject empty; reject ids containing a
slash, a backslash, or `..`. -/
def sanitizeTenantID (tenantID : GoStr) : Except GoStr GoStr :=
  let id := trimSpace tenantID
  if id = [] then .error (gs "tenant_id 不能为空")
  else if containsStr id (gs "/") || containsStr id (gs "\\") ||
      containsStr id (gs "..") then .error (gs "tenant_id 非法")
  else .ok id

/-- model of `tenantDir`. -/
def tenantDirOf (cacheDir tenantID : GoStr) : Except GoStr GoStr :=
  (sanitizeTenantID tenantID).map (pathJoin cacheDir)

/-- model of `stateFile`. -/
def stateFileOf (cacheDir tenantID : GoStr) : Except GoStr GoStr :=
  (tenantDirOf cacheDir tenantID).map (fun d => pathJoin d (gs "current.json"))

/-- filesystem operations that `SaveState` can issue.  A `writeState` op is a
single `os.WriteFile` carrying the record whose `json.MarshalIndent` bytes are
written (marshalling of this plain struct cannot fail). -/
inductive FsOp where
  | mkdirAll (path : GoStr)
  | writeState (path : GoStr) (s : CacheState)
  | renameFile (src dst : GoStr)
deriving DecidableEq

/-- model of `SaveState` as the ordered list of filesystem operations it
performs: resolve the tenant dir, `os.MkdirAll` it, then `os.WriteFile` the
state file in place. -/
def saveStateOps (cacheDir tenantID : GoStr) (s : CacheState) :
    Except GoStr (List FsOp) :=
  match tenantDirOf cacheDir tenantID with
  | .error e => .error e
  | .ok dir =>
    match stateFileOf cacheDir tenantID with
    | .error e => .error e
    | .ok p => .ok [FsOp.mkdirAll dir, FsOp.writeState p s]

/-- the claim's property, from the spec's words: the state file is replaced
by writing somewhere else and renaming over the target, never by a direct
write of the target. -/
def OpsWriteThenRename (ops : List FsOp) (target : GoStr) : Prop :=
  (∃ tmp, tmp ≠ target ∧ FsOp.renameFile tmp target ∈ ops) ∧
  ∀ s, FsOp.writeState target s ∉ ops

/-- C2 counterexample: at a concrete cache dir, tenant and state, `SaveState`
issues a `MkdirAll` followed by a direct `WriteFile` of `current.json`; there
is no rename at all, so the write-then-rename property fails. -/
theorem saveState_not_write_then_rename :
    saveStateOps (gs "/cache") (gs "t1")
        ⟨gs "v1", gs "sha1", gs "/cache/t1/v1/rules.tar.gz"⟩ =
      .ok [FsOp.mkdirAll (gs "/cache/t1"),
           FsOp.writeState (gs "/cache/t1/current.json")
             ⟨gs "v1", gs "sha1", gs "/cache/t1/v1/rules.tar.gz"⟩] ∧
    ¬ OpsWriteThenRename
        [FsOp.mkdirAll (gs "/cache/t1"),
         FsOp.writeState (gs "/cache/t1/current.json")
           ⟨gs "v1", gs "sha1", gs "/cache/t1/v1/rules.tar.gz"⟩]
        (gs "/cache/t1/current.json") := by
  constructor
  · rfl
  · rintro ⟨⟨tmp, htmp, hmem⟩, hnowrite⟩
    simp at hmem

/-- C2 (amended): for every valid tenant id, `SaveState` performs exactly
`MkdirAll` of the tenant dir followed by one direct `WriteFile` of
`current.json` — it does not use a write-then-rename replacement, so the
update is not atomic against a crash mid-write. -/
theorem saveStateOps_direct_write (cacheDir tenantID : GoStr) (s : CacheState)
    (id : GoStr) (hid : sanitizeTenantID tenantID = .ok id) :
    saveStateOps cacheDir tenantID s =
      .ok [FsOp.mkdirAll (pathJoin cacheDir id),
           FsOp.writeState (pathJoin (pathJoin cacheDir id) (gs "current.json")) s] ∧
    ¬ OpsWriteThenRename
        [FsOp.mkdirAll (pathJoin cacheDir id),
         FsOp.writeState (pathJoin (pathJoin cacheDir id) (gs "current.json")) s]
        (pathJoin (pathJoin cacheDir id) (gs "current.json")) := by
  constructor
  · simp [saveStateOps, tenantDirOf, stateFileOf, hid, Except.map]
  · rintro ⟨⟨tmp, htmp, hmem⟩, hnowrite⟩
    simp at hmem

/-- C2 amended witness: the direct-write theorem at the concrete tenant. -/
theorem saveStateOps_direct_write_witness :
    saveStateOps (gs "/cache") (gs "t1")
        ⟨gs "v1", gs "sha1", gs "/cache/t1/v1/rules.tar.gz"⟩ =
      .ok [FsOp.mkdirAll (pathJoin (gs "/cache") (gs "t1")),
           FsOp.writeState (pathJoin (pathJoin (gs "/cache") (gs "t1"))
             (gs "current.json")) ⟨gs "v1", gs "sha1", gs "/cache/t1/v1/rules.tar.gz"⟩] :=
  (saveStateOps_direct_write (gs "/cache") (gs "t1")
    ⟨gs "v1", gs "sha1", gs "/cache/t1/v1/rules.tar.gz"⟩ (gs "t1") (by rfl)).1

-- ------------------------------------------------------------------
-- Rules sync inside RunGen (src/unnamed/part_001, lines 115-169)
-- ------------------------------------------------------------------

/-- the fields of the resolve response that the sync step reads. -/
structure ResolveResp where
  upToDate : Bool
  rulesVersion : GoStr
  manifestSHA : GoStr
  downloadURL : GoStr
  signatureBase64 : GoStr
  signingPublicKeyPathInArchive : GoStr
  signingPublicKeySignatureBase64 : GoStr

/-- oracles for the effectful calls of the sync step: the loaded cache state,
the resolve call, the download (returning data and its SHA-256), the
`rules.HasArchive` stat, `rules.SaveArchive` (returning the archive path),
the signature verification, and `rules.SaveState`. -/
structure SyncEnv where
  st : CacheState
  resolve : Except GoStr ResolveResp
  download : Except GoStr (GoStr × GoStr)
  hasArchive : GoStr → Bool
  saveArchive : GoStr → GoStr → Except GoStr GoStr
  verify : GoStr → Except GoStr Unit
  saveState : CacheState → Except GoStr Unit

/-- outcome of the sync step: the state the rest of the run proceeds with (or
the fatal error), the fallback/update notices logged, and whether SaveArchive
/ SaveState completed. -/
structure SyncOut where
  result : Except GoStr CacheState
  logs : List GoStr
  archiveSaved : Bool
  stateSaved : Bool

/-- the tail check of the sync step (`本地规则不可用` when the state in hand
is still unusable), reached only on non-error paths. -/
def syncFinish (st : CacheState) (logs : List GoStr) (aSaved sSaved : Bool)
    (env : SyncEnv) : SyncOut :=
  if st.rulesVersion = [] ∨ env.hasArchive st.archivePath = false then
    { result := .error (gs "本地规则不可用"), logs := logs,
      archiveSaved := aSaved, stateSaved := sSaved }
  else
    { result := .ok st, logs := logs, archiveSaved := aSaved, stateSaved := sSaved }

/-- model of the rules-sync segment of `RunGen`: resolve, fall back or fail
when unreachable; download when needed; SHA mismatch is fatal without a
usable cache and degrades to the cached rules otherwise; then save, verify
(same fatal-vs-fallback policy) and persist the new state. -/
def syncRules (env : SyncEnv) : SyncOut :=
  let st := env.st
  match env.resolve with
  | .error _ =>
    if st.rulesVersion = [] ∨ env.hasArchive st.archivePath = false then
      { result := .error (gs "规则中心不可达且首次运行无缓存"), logs := [],
        archiveSaved := false, stateSaved := false }
    else
      syncFinish st [gs "规则中心不可达，继续使用本地规则（" ++ st.rulesVersion ++ gs "）"]
        false false env
  | .ok res =>
    let needDownload := !res.upToDate || !(env.hasArchive st.archivePath) ||
      decide (st.rulesVersion ≠ res.rulesVersion)
    if needDownload then
      match env.download with
      | .error dErr =>
        if st.rulesVersion = [] ∨ env.hasArchive st.archivePath = false then
          { result := .error (gs "首次拉规则失败: " ++ dErr), logs := [],
            archiveSaved := false, stateSaved := false }
        else
          syncFinish st [gs "规则下载失败，继续使用本地规则（" ++ st.rulesVersion ++ gs "）"]
            false false env
      | .ok (data, gotSHA) =>
        if gotSHA ≠ res.manifestSHA then
          if st.rulesVersion = [] ∨ env.hasArchive st.archivePath = false then
            { result := .error (gs "首次拉规则 sha256 不匹配"), logs := [],
              archiveSaved := false, stateSaved := false }
          else
            syncFinish st
              [gs "规则校验失败，继续使用本地规则（" ++ st.rulesVersion ++ gs "）"]
              false false env
        else
          match env.saveArchive res.rulesVersion data with
          | .error e =>
            { result := .error e, logs := [], archiveSaved := false, stateSaved := false }
          | .ok p =>
            match env.verify p with
            | .error e =>
              if st.rulesVersion = [] ∨ env.hasArchive st.archivePath = false then
                { result := .error (gs "首次拉规则签名校验失败: " ++ e), logs := [],
                  archiveSaved := true, stateSaved := false }
              else
                syncFinish st
                  [gs "规则签名校验失败，继续使用本地规则（" ++ st.rulesVersion ++ gs "）"]
                  true false env
            | .ok _ =>
              let newSt : CacheState :=
                ⟨res.rulesVersion, res.manifestSHA, p⟩
              match env.saveState newSt with
              | .error e =>
                { result := .error e, logs := [], archiveSaved := true,
                  stateSaved := false }
              | .ok _ =>
                syncFinish newSt
                  [gs "规则中心：规则中心更新成功（" ++ res.rulesVersion ++ gs "）"]
                  true true env
    else
      syncFinish st [] false false env

/-- C3: when the downloaded archive's SHA differs from the advertised
manifest SHA, the run fails with 首次拉规则 sha256 不匹配 — saving neither the
archive nor the state — iff there is no usable cache (blank cached version or
missing archive file); with a usable cache it logs the fallback notice and
proceeds with the cached state unchanged. -/
theorem syncRules_sha_mismatch (env : SyncEnv) (res : ResolveResp)
    (data gotSHA : GoStr)
    (hres : env.resolve = .ok res)
    (hneed : (!res.upToDate || !(env.hasArchive env.st.archivePath) ||
      decide (env.st.rulesVersion ≠ res.rulesVersion)) = true)
    (hdl : env.download = .ok (data, gotSHA))
    (hsha : gotSHA ≠ res.manifestSHA) :
    ((env.st.rulesVersion = [] ∨ env.hasArchive env.st.archivePath = false) →
      syncRules env =
        { result := .error (gs "首次拉规则 sha256 不匹配"), logs := [],
          archiveSaved := false, stateSaved := false }) ∧
    (env.st.rulesVersion ≠ [] → env.hasArchive env.st.archivePath = true →
      (syncRules env).result = .ok env.st ∧
      (syncRules env).logs =
        [gs "规则校验失败，继续使用本地规则（" ++ env.st.rulesVersion ++ gs "）"] ∧
      (syncRules env).archiveSaved = false ∧
      (syncRules env).stateSaved = false) := by
  constructor
  · intro hcache
    simp [syncRules, hres, hneed, hdl, hsha, hcache]
    intro h1 h2 h3
    rw [h1, h2, h3] at hneed
    simp at hneed
  · intro hver harch
    have hcache : ¬ (env.st.rulesVersion = [] ∨ env.hasArchive env.st.archivePath = false) := by
      simp [hver, harch]
    have hcase : res.upToDate = false ∨ ¬ env.st.rulesVersion = res.rulesVersion := by
      rw [harch] at hneed
      simpa using hneed
    simp [syncRules, hres, hneed, hdl, hsha, hcache, syncFinish, hver, harch, hcase]

/-- a concrete sync environment with an always-present cached archive, used
to witness the SHA-mismatch theorem on its usable-cache branch. -/
def syncEnvCached : SyncEnv :=
  { st := ⟨gs "v1", gs "shaOld", gs "/cache/t1/v1/rules.tar.gz"⟩
    resolve := .ok
      { upToDate := false, rulesVersion := gs "v2", manifestSHA := gs "shaNew"
        downloadURL := gs "https://x/dl", signatureBase64 := gs "sig"
        signingPublicKeyPathInArchive := gs "tenant/keys/signing_public.pem"
        signingPublicKeySignatureBase64 := gs "keysig" }
    download := .ok (gs "bytes", gs "shaWrong")
    hasArchive := fun _ => true
    saveArchive := fun _ _ => .ok (gs "/cache/t1/v2/rules.tar.gz")
    verify := fun _ => .ok ()
    saveState := fun _ => .ok () }

/-- C3 witness: with a usable cache and a SHA mismatch, the sync proceeds with
the cached state, logs the fallback notice, and saves nothing. -/
theorem syncRules_sha_mismatch_witness :
    (syncRules syncEnvCached).result = .ok syncEnvCached.st ∧
    (syncRules syncEnvCached).logs =
      [gs "规则校验失败，继续使用本地规则（" ++ syncEnvCached.st.rulesVersion ++ gs "）"] ∧
    (syncRules syncEnvCached).archiveSaved = false ∧
    (syncRules syncEnvCached).stateSaved = false :=
  (syncRules_sha_mismatch syncEnvCached
      { upToDate := false, rulesVersion := gs "v2", manifestSHA := gs "shaNew"
        downloadURL := gs "https://x/dl", signatureBase64 := gs "sig"
        signingPublicKeyPathInArchive := gs "tenant/keys/signing_public.pem"
        signingPublicKeySignatureBase64 := gs "keysig" }
      (gs "bytes") (gs "shaWrong") rfl (by rfl) rfl (by decide)).2
    (by decide) rfl

-- ------------------------------------------------------------------
-- Run epilogue and cancellation gating (src/unnamed/part_001,
-- RunGen lines 223-274)
-- ------------------------------------------------------------------

/-- the possible values of `ctx.Err()` for the run context. -/
inductive CtxErr where
  | noErr
  | canceled
  | deadlineExceeded
deriving DecidableEq

/-- model of `errors.Is(ctx.Err(), context.Canceled)`. -/
def ctxErrIsCanceled : CtxErr → Bool
  | .canceled => true
  | _ => false

/-- the context-watcher goroutine (`go func() { <-ctx.Done(); if errors.Is
(ctx.Err(), context.Canceled) { cancelSubmittedTasks() } }()`): whether it
invokes the cancel sweep for a given terminal context error. -/
def ctxWatcherInvokesCancel (ctxErr : CtxErr) : Bool := ctxErrIsCanceled ctxErr

/-- the final summary line of a completed run. -/
def summaryLine (success failed : Nat) (durStr : GoStr) : GoStr :=
  gs "任务完成：成功 " ++ natStr success ++ gs "，失败 " ++ natStr failed ++
    gs "，总耗时 " ++ durStr

/-- outcome of the post-wait epilogue: whether the cancel sweep was invoked,
the lines logged by the epilogue itself, and the value RunGen returns
(`none` = nil error). -/
structure EpilogueOut where
  cancelSweep : Bool
  logs : List GoStr
  retErr : Option GoStr

/-- model of the epilogue after `wg.Wait()`: when the context error is
`context.Canceled` the cancel sweep runs and RunGen returns the cancellation
error; otherwise the summary line is logged and 存在失败任务 is returned iff
the failure counter is positive.  `durStr` stands for
`humanDurationShort(time.Since(startAll))`. -/
def runGenEpilogue (ctxErr : CtxErr) (success failed : Nat) (durStr : GoStr) :
    EpilogueOut :=
  if ctxErrIsCanceled ctxErr then
    { cancelSweep := true, logs := [], retErr := some (gs "context canceled") }
  else
    { cancelSweep := false
      logs := [summaryLine success failed durStr]
      retErr := if 0 < failed then some (gs "存在失败任务") else none }

/-- C4: every non-cancelled run logs exactly the summary line built from the
success/failure counters and returns an error iff the failure counter is
positive (namely 存在失败任务); a cancelled run returns the cancellation error
whatever the counters say. -/
theorem runGenEpilogue_summary (ctxErr : CtxErr) (success failed : Nat)
    (durStr : GoStr) :
    (ctxErrIsCanceled ctxErr = false →
      (runGenEpilogue ctxErr success failed durStr).logs =
        [summaryLine success failed durStr] ∧
      (runGenEpilogue ctxErr success failed durStr).retErr =
        (if 0 < failed then some (gs "存在失败任务") else none) ∧
      ((runGenEpilogue ctxErr success failed durStr).retErr ≠ none ↔ 0 < failed)) ∧
    (ctxErrIsCanceled ctxErr = true →
      (runGenEpilogue ctxErr success failed durStr).retErr =
        some (gs "context canceled")) := by
  constructor
  · intro h
    refine ⟨by simp [runGenEpilogue, h], by simp [runGenEpilogue, h], ?_⟩
    by_cases hf : 0 < failed
    · simp [runGenEpilogue, h, hf]
    · simp [runGenEpilogue, h, hf]
  · intro h
    simp [runGenEpilogue, h]

/-- C4 witness: the summary theorem evaluated for a completed run with two
successes and one failure. -/
theorem runGenEpilogue_summary_witness :
    (runGenEpilogue CtxErr.noErr 2 1 (gs "3s")).logs = [summaryLine 2 1 (gs "3s")] ∧
    (runGenEpilogue CtxErr.noErr 2 1 (gs "3s")).retErr = some (gs "存在失败任务") :=
  ⟨((runGenEpilogue_summary CtxErr.noErr 2 1 (gs "3s")).1 (by decide)).1,
   by
    have h := ((runGenEpilogue_summary CtxErr.noErr 2 1 (gs "3s")).1 (by decide)).2.1
    simpa using h⟩

/-- C9: the cancel sweep — in the watcher goroutine and in the post-wait
path — is gated on `context.Canceled` exactly; with `DeadlineExceeded` no
sweep runs and RunGen falls through to the summary-and-return-iff-failed
path. -/
theorem runGenEpilogue_deadline_no_cancel (success failed : Nat) (durStr : GoStr) :
    (∀ e, ctxWatcherInvokesCancel e = true ↔ e = CtxErr.canceled) ∧
    (∀ e, (runGenEpilogue e success failed durStr).cancelSweep = true ↔
      e = CtxErr.canceled) ∧
    (runGenEpilogue CtxErr.deadlineExceeded success failed durStr).cancelSweep
      = false ∧
    (runGenEpilogue CtxErr.deadlineExceeded success failed durStr).logs =
      [summaryLine success failed durStr] ∧
    (runGenEpilogue CtxErr.deadlineExceeded success failed durStr).retErr =
      (if 0 < failed then some (gs "存在失败任务") else none) := by
  refine ⟨?_, ?_, ?_, ?_, ?_⟩
  · intro e
    cases e <;> simp [ctxWatcherInvokesCancel, ctxErrIsCanceled]
  · intro e
    cases e <;> simp [runGenEpilogue, ctxErrIsCanceled]
  · simp [runGenEpilogue, ctxErrIsCanceled]
  · simp [runGenEpilogue, ctxErrIsCanceled]
  · simp [runGenEpilogue, ctxErrIsCanceled]

-- ------------------------------------------------------------------
-- Trace drain and warn-once suppression (src/unnamed/part_001,
-- runGenerateTask, drainTrace closure, lines 342-406)
-- ------------------------------------------------------------------

/-- the fields of a `JobTraceItem` that the drain reads directly; `payload`
stands opaquely for the open payload map, consumed only by the renderer. -/
structure TraceItem where
  source : GoStr
  event : GoStr
  tenantID : GoStr
  elapsedMS : Int
  payload : Nat

/-- one page of `JobTrace` results. -/
structure TraceBatch where
  items : List TraceItem
  nextOffset : Nat
  hasMore : Bool

/-- outcome of one `api.JobTrace` call. -/
inductive FetchOutcome where
  | fetchFail (err : GoStr)
  | fetchOk (batch : TraceBatch)

/-- the worker-local trace cursor (`traceOffset`, `traceWarned`,
`lastTraceLine`) together with the log-prefix state (`tenantForLog`,
`elapsedForLog`). -/
structure DrainState where
  traceOffset : Nat
  traceWarned : Bool
  lastTraceLine : GoStr
  tenantForLog : GoStr
  elapsedForLog : Int

/-- the lines the drain can emit, one constructor per Go call site: the
warn-once `log.Info(... 过程拉取失败，继续执行：...)`, the rendered trace
`log.Info`, the verbose `log.Event("worker_trace_error", ...)`, and the
verbose `log.Event("worker_trace", ...)` record. -/
inductive LogLine where
  | warnTraceFail (line : GoStr)
  | traceLine (line : GoStr)
  | traceErrorEvent (err : GoStr)
  | workerTraceEvent (payload : Nat)

/-- environment of the drain: verbosity, the renderer
(`renderWorkerTraceLine item (!verbose)`, modelled as an oracle over the
opaque payload), and the task label. -/
structure DrainEnv where
  verbose : Bool
  render : TraceItem → GoStr
  label : GoStr

/-- `%02d` of the prefix clock fields. -/
def pad2 (n : Nat) : GoStr := if n < 10 then '0' :: natStr n else natStr n

/-- model of `tracePrefix`. -/
def tracePrefix (tenantID : GoStr) (elapsedMs : Int) : GoStr :=
  let tenant := if trimSpace tenantID = [] then gs "-" else trimSpace tenantID
  let e : Nat := (max elapsedMs 0).toNat
  let totalSec := e / 1000
  let hh := totalSec / 3600
  let mm := (totalSec % 3600) / 60
  let ss := totalSec % 60
  if hh > 0 then
    tenant ++ gs ":" ++ pad2 hh ++ gs ":" ++ pad2 mm ++ gs ":" ++ pad2 ss
  else
    tenant ++ gs ":" ++ pad2 mm ++ gs ":" ++ pad2 ss

/-- model of `taskPrefix`. -/
def taskPrefix (tenantID : GoStr) (elapsedMs : Int) (taskLabel : GoStr) : GoStr :=
  let p := tracePrefix tenantID elapsedMs
  if trimSpace taskLabel = [] then p
  else p ++ gs " [" ++ trimSpace taskLabel ++ gs "]"

/-- model of `shouldSkipVerboseWorkerTrace`. -/
def shouldSkipVerboseWorkerTrace (item : TraceItem) : Bool :=
  item.source == gs "api" &&
    (item.event == gs "job_status_read" || item.event == gs "job_result_not_ready")

/-- the `tenantForLog` / `elapsedForLog` updates at the top of the item loop. -/
def updateItemState (st : DrainState) (item : TraceItem) : DrainState :=
  let st1 := if trimSpace item.tenantID ≠ [] then
    { st with tenantForLog := item.tenantID } else st
  if item.elapsedMS ≥ 0 then { st1 with elapsedForLog := item.elapsedMS } else st1

/-- the body of the `for _, item := range tr.Items` loop: tenant/elapsed
updates, the verbose NDJSON record (with its skip), rendering, and the
non-verbose dedup against `lastTraceLine`. -/
def processItem (env : DrainEnv) (st : DrainState) (item : TraceItem) :
    DrainState × List LogLine :=
  let st := updateItemState st item
  if env.verbose && shouldSkipVerboseWorkerTrace item then (st, [])
  else
    let ev : List LogLine :=
      if env.verbose then [LogLine.workerTraceEvent item.payload] else []
    let msg := env.render item
    if trimSpace msg = [] then (st, ev)
    else if env.verbose then
      (st, ev ++ [LogLine.traceLine
        (taskPrefix st.tenantForLog st.elapsedForLog env.label ++ gs " " ++ msg)])
    else if msg = st.lastTraceLine then (st, ev)
    else
      ({ st with lastTraceLine := msg },
       ev ++ [LogLine.traceLine
         (taskPrefix st.tenantForLog st.elapsedForLog env.label ++ gs " " ++ msg)])

/-- the item loop over one batch. -/
def processItems (env : DrainEnv) : DrainState → List TraceItem →
    DrainState × List LogLine
  | st, [] => (st, [])
  | st, item :: rest =>
    let p := processItem env st item
    let q := processItems env p.1 rest
    (q.1, p.2 ++ q.2)

/-- result of one `JobTrace` call handled by the loop body: new state, lines
emitted, and whether the drain returns (`return` in the Go body). -/
structure StepResult where
  st : DrainState
  lines : List LogLine
  stop : Bool

/-- one iteration of the drain loop body: on a fetch error the verbose mode
logs an event and returns, the normal mode warns once per burst
(`traceWarned`) and returns; on success the suppression resets, the offset
advances, items are processed, and the loop continues only when `hasMore`. -/
def traceFetchStep (env : DrainEnv) (st : DrainState) (o : FetchOutcome) : StepResult :=
  match o with
  | .fetchFail err =>
    if env.verbose then { st := st, lines := [LogLine.traceErrorEvent err], stop := true }
    else if !st.traceWarned then
      { st := { st with traceWarned := true }
        lines := [LogLine.warnTraceFail
          (taskPrefix st.tenantForLog st.elapsedForLog env.label ++
            gs " 过程拉取失败，继续执行：" ++ err)]
        stop := true }
    else { st := st, lines := [], stop := true }
  | .fetchOk tr =>
    let st := { st with traceWarned := false }
    if tr.items.isEmpty then
      { st := { st with traceOffset := tr.nextOffset }, lines := [], stop := true }
    else
      let st := { st with traceOffset := tr.nextOffset }
      let p := processItems env st tr.items
      { st := p.1, lines := p.2, stop := !tr.hasMore }

/-- result of a whole drain invocation over a schedule of fetch outcomes. -/
structure DrainResult where
  st : DrainState
  rem : List FetchOutcome
  lines : List LogLine

/-- the `for i := 0; i < 3; i++` drain loop, consuming successive fetch
outcomes from the schedule. -/
def drainLoop (env : DrainEnv) : Nat → DrainState → List FetchOutcome → DrainResult
  | 0, st, sched => { st := st, rem := sched, lines := [] }
  | _ + 1, st, [] => { st := st, rem := [], lines := [] }
  | fuel + 1, st, o :: rest =>
    let r := traceFetchStep env st o
    if r.stop then { st := r.st, rem := rest, lines := r.lines }
    else
      let d := drainLoop env fuel r.st rest
      { st := d.st, rem := d.rem, lines := r.lines ++ d.lines }

/-- one `drainTrace()` call: the loop with its burst budget of 3. -/
def drainTrace (env : DrainEnv) (st : DrainState) (sched : List FetchOutcome) :
    DrainResult :=
  drainLoop env 3 st sched

/-- result of repeatedly invoking `drainTrace` (as the poll loop does) until
the fuel runs out. -/
structure RunResult where
  st : DrainState
  lines : List LogLine

/-- the successive `drainTrace()` invocations of the poll loop, consuming the
whole fetch schedule. -/
def runDrains (env : DrainEnv) : Nat → DrainState → List FetchOutcome → RunResult
  | 0, st, _ => { st := st, lines := [] }
  | n + 1, st, sched =>
    let d := drainTrace env st sched
    let r := runDrains env n d.st d.rem
    { st := r.st, lines := d.lines ++ r.lines }

/-- does a log line come from the warn-once call site. -/
def isWarnLine : LogLine → Bool
  | .warnTraceFail _ => true
  | _ => false

/-- number of warn lines in an output. -/
def countWarnLines (ls : List LogLine) : Nat := (ls.filter isWarnLine).length

/-- is a fetch outcome a failure. -/
def isFailOutcome : FetchOutcome → Bool
  | .fetchFail _ => true
  | _ => false

/-- number of maximal contiguous failure bursts, tracked with a
previous-was-failure flag. -/
def failBurstsAux (prevFail : Bool) : List FetchOutcome → Nat
  | [] => 0
  | o :: rest =>
    (if isFailOutcome o && !prevFail then 1 else 0) + failBurstsAux (isFailOutcome o) rest

/-- the claim's count: maximal contiguous failure bursts in the fetch
schedule. -/
def failBursts (sched : List FetchOutcome) : Nat := failBurstsAux false sched

/-- semantic warn count: the number of warn lines the drain emits from a
given suppression flag, consuming the schedule left to right. -/
def warnCountAux (warned : Bool) : List FetchOutcome → Nat
  | [] => 0
  | .fetchFail _ :: rest => (if warned then 0 else 1) + warnCountAux true rest
  | .fetchOk _ :: rest => warnCountAux false rest

/-- the drain's initial cursor for a task. -/
def initDrainState (tenant : GoStr) : DrainState :=
  { traceOffset := 0, traceWarned := false, lastTraceLine := []
    tenantForLog := tenant, elapsedForLog := 0 }

theorem countWarnLines_append (a b : List LogLine) :
    countWarnLines (a ++ b) = countWarnLines a + countWarnLines b := by
  simp [countWarnLines, List.filter_append]

theorem warnCountAux_eq_failBurstsAux (l : List FetchOutcome) :
    ∀ w, warnCountAux w l = failBurstsAux w l := by
  induction l with
  | nil => intro w; rfl
  | cons o rest ih =>
    intro w
    cases o with
    | fetchFail err =>
      cases w <;> simp [warnCountAux, failBurstsAux, isFailOutcome, ih]
    | fetchOk tr =>
      cases w <;> simp [warnCountAux, failBurstsAux, isFailOutcome, ih]

theorem updateItemState_traceWarned (st : DrainState) (item : TraceItem) :
    (updateItemState st item).traceWarned = st.traceWarned := by
  unfold updateItemState
  by_cases h1 : trimSpace item.tenantID ≠ [] <;>
    by_cases h2 : item.elapsedMS ≥ 0 <;> simp [h1, h2]

theorem processItem_traceWarned (env : DrainEnv) (st : DrainState) (item : TraceItem) :
    (processItem env st item).1.traceWarned = st.traceWarned := by
  unfold processItem
  by_cases hskip : (env.verbose && shouldSkipVerboseWorkerTrace item) = true
  · simp [hskip, updateItemState_traceWarned]
  · by_cases hmsg : trimSpace (env.render item) = []
    · simp [hskip, hmsg, updateItemState_traceWarned]
    · by_cases hverb : env.verbose = true
      · simp only [hverb, Bool.true_and] at hskip
        simp [hskip, hmsg, hverb, updateItemState_traceWarned]
      · by_cases hlast : env.render item = (updateItemState st item).lastTraceLine
        · simp [hskip, hmsg, hverb, hlast, updateItemState_traceWarned]
        · simp [hskip, hmsg, hverb, hlast, updateItemState_traceWarned]

theorem processItem_no_warn (env : DrainEnv) (st : DrainState) (item : TraceItem) :
    countWarnLines (processItem env st item).2 = 0 := by
  unfold processItem
  by_cases hskip : (env.verbose && shouldSkipVerboseWorkerTrace item) = true
  · simp [hskip, countWarnLines]
  · by_cases hmsg : trimSpace (env.render item) = []
    · by_cases hverb : env.verbose = true
      · simp only [hverb, Bool.true_and] at hskip
        simp [hskip, hmsg, hverb, countWarnLines, isWarnLine]
      · simp [hskip, hmsg, hverb, countWarnLines, isWarnLine]
    · by_cases hverb : env.verbose = true
      · simp only [hverb, Bool.true_and] at hskip
        simp [hskip, hmsg, hverb, countWarnLines, isWarnLine]
      · by_cases hlast : env.render item = (updateItemState st item).lastTraceLine <;>
          simp [hskip, hmsg, hverb, hlast, countWarnLines, isWarnLine]

theorem processItems_traceWarned (env : DrainEnv) :
    ∀ (items : List TraceItem) (st : DrainState),
      (processItems env st items).1.traceWarned = st.traceWarned := by
  intro items
  induction items with
  | nil => intro st; rfl
  | cons item rest ih =>
    intro st
    simp only [processItems]
    rw [ih, processItem_traceWarned]

theorem processItems_no_warn (env : DrainEnv) :
    ∀ (items : List TraceItem) (st : DrainState),
      countWarnLines (processItems env st items).2 = 0 := by
  intro items
  induction items with
  | nil => intro st; rfl
  | cons item rest ih =>
    intro st
    simp only [processItems]
    rw [countWarnLines_append, ih, processItem_no_warn]

theorem traceFetchStep_char (env : DrainEnv) (hv : env.verbose = false)
    (st : DrainState) (o : FetchOutcome) :
    countWarnLines (traceFetchStep env st o).lines =
      (if isFailOutcome o && !st.traceWarned then 1 else 0) ∧
    (traceFetchStep env st o).st.traceWarned = isFailOutcome o ∧
    (isFailOutcome o = true → (traceFetchStep env st o).stop = true) := by
  cases o with
  | fetchFail err =>
    by_cases hw : st.traceWarned <;>
      simp [traceFetchStep, hv, hw, countWarnLines, isWarnLine, isFailOutcome]
  | fetchOk tr =>
    by_cases hempty : tr.items.isEmpty = true
    · simp [traceFetchStep, hv, hempty, countWarnLines, isFailOutcome]
    · refine ⟨?_, ?_, ?_⟩
      · simp only [traceFetchStep, hv, hempty, if_false, Bool.false_eq_true]
        rw [processItems_no_warn]
        simp [isFailOutcome]
      · simp only [traceFetchStep, hv, hempty, if_false, Bool.false_eq_true]
        rw [processItems_traceWarned]
        simp [isFailOutcome]
      · intro hfail
        simp [isFailOutcome] at hfail

theorem drainLoop_warn (env : DrainEnv) (hv : env.verbose = false) :
    ∀ (fuel : Nat) (st : DrainState) (sched : List FetchOutcome),
      countWarnLines (drainLoop env fuel st sched).lines +
        warnCountAux (drainLoop env fuel st sched).st.traceWarned
          (drainLoop env fuel st sched).rem
      = warnCountAux st.traceWarned sched := by
  intro fuel
  induction fuel with
  | zero => intro st sched; simp [drainLoop, countWarnLines]
  | succ fuel ih =>
    intro st sched
    cases sched with
    | nil => simp [drainLoop, countWarnLines, warnCountAux]
    | cons o rest =>
      obtain ⟨hc1, hc2, hc3⟩ := traceFetchStep_char env hv st o
      by_cases hstop : (traceFetchStep env st o).stop = true
      · have hred : drainLoop env (fuel + 1) st (o :: rest) =
            { st := (traceFetchStep env st o).st, rem := rest,
              lines := (traceFetchStep env st o).lines } := by
          simp [drainLoop, hstop]
        rw [hred]
        simp only
        rw [hc1, hc2]
        cases o with
        | fetchFail err =>
          cases hw : st.traceWarned <;>
            simp [isFailOutcome, warnCountAux, hw]
        | fetchOk tr =>
          simp [isFailOutcome, warnCountAux]
      · have hfail : isFailOutcome o = false := by
          cases hx : isFailOutcome o
          · rfl
          · exact absurd (hc3 hx) hstop
        have hred : drainLoop env (fuel + 1) st (o :: rest) =
            { st := (drainLoop env fuel (traceFetchStep env st o).st rest).st,
              rem := (drainLoop env fuel (traceFetchStep env st o).st rest).rem,
              lines := (traceFetchStep env st o).lines ++
                (drainLoop env fuel (traceFetchStep env st o).st rest).lines } := by
          simp [drainLoop, hstop]
        rw [hred]
        simp only
        rw [countWarnLines_append, hc1, hfail]
        have ih' := ih (traceFetchStep env st o).st rest
        rw [hc2, hfail] at ih'
        cases o with
        | fetchFail err => simp [isFailOutcome] at hfail
        | fetchOk tr =>
          simp only [Bool.false_and, if_neg (by simp : ¬ (false = true))]
          simpa [warnCountAux] using ih'

theorem drainLoop_rem_le (env : DrainEnv) :
    ∀ (fuel : Nat) (st : DrainState) (sched : List FetchOutcome),
      (drainLoop env fuel st sched).rem.length ≤ sched.length := by
  intro fuel
  induction fuel with
  | zero => intro st sched; simp [drainLoop]
  | succ fuel ih =>
    intro st sched
    cases sched with
    | nil => simp [drainLoop]
    | cons o rest =>
      simp only [drainLoop]
      split
      · simp
      · calc (drainLoop env fuel (traceFetchStep env st o).st rest).rem.length
            ≤ rest.length := ih _ rest
          _ ≤ (o :: rest).length := by simp

theorem drainLoop_rem_lt (env : DrainEnv) (fuel : Nat) (st : DrainState)
    (o : FetchOutcome) (rest : List FetchOutcome) :
    (drainLoop env (fuel + 1) st (o :: rest)).rem.length < (o :: rest).length := by
  simp only [drainLoop]
  split
  · simp
  · calc (drainLoop env fuel (traceFetchStep env st o).st rest).rem.length
        ≤ rest.length := drainLoop_rem_le env fuel _ rest
      _ < (o :: rest).length := by simp

theorem runDrains_warn (env : DrainEnv) (hv : env.verbose = false) :
    ∀ (fuel : Nat) (st : DrainState) (sched : List FetchOutcome),
      sched.length ≤ fuel →
      countWarnLines (runDrains env fuel st sched).lines =
        warnCountAux st.traceWarned sched := by
  intro fuel
  induction fuel with
  | zero =>
    intro st sched hlen
    have : sched = [] := List.eq_nil_of_length_eq_zero (Nat.le_zero.mp hlen)
    subst this
    simp [runDrains, countWarnLines, warnCountAux]
  | succ fuel ih =>
    intro st sched hlen
    cases sched with
    | nil =>
      simp only [runDrains, drainTrace]
      have hd : drainLoop env 3 st [] = { st := st, rem := [], lines := [] } := by
        rfl
      rw [hd]
      simp [countWarnLines, warnCountAux]
      have := ih st [] (by simp)
      simpa [countWarnLines, warnCountAux] using this
    | cons o rest =>
      simp only [runDrains, drainTrace]
      rw [countWarnLines_append]
      have hlt := drainLoop_rem_lt env 2 st o rest
      have hrem : (drainLoop env 3 st (o :: rest)).rem.length ≤ fuel := by
        have h2 : (drainLoop env 3 st (o :: rest)).rem.length < (o :: rest).length :=
          hlt
        omega
      rw [ih _ _ hrem]
      have := drainLoop_warn env hv 3 st (o :: rest)
      simpa [drainTrace] using this

/-- C5: starting from a fresh cursor and running the drain until the fetch
schedule is exhausted (non-verbose mode), the number of 过程拉取失败 warn
lines equals the number of maximal contiguous failure bursts in the schedule;
the drain returns right after a failed fetch, and any successful fetch resets
the suppression flag. -/
theorem drain_warn_once_per_burst (render : TraceItem → GoStr)
    (label tenant : GoStr) (sched : List FetchOutcome) :
    countWarnLines (runDrains { verbose := false, render := render, label := label }
        sched.length (initDrainState tenant) sched).lines = failBursts sched ∧
    (∀ (st : DrainState) (err : GoStr) (rest : List FetchOutcome) (f : Nat),
      (drainLoop { verbose := false, render := render, label := label } (f + 1) st
        (FetchOutcome.fetchFail err :: rest)).rem = rest) ∧
    (∀ (st : DrainState) (b : TraceBatch),
      (traceFetchStep { verbose := false, render := render, label := label } st
        (FetchOutcome.fetchOk b)).st.traceWarned = false) := by
  refine ⟨?_, ?_, ?_⟩
  · rw [runDrains_warn _ rfl _ _ _ (Nat.le_refl _)]
    rw [failBursts, initDrainState]
    exact warnCountAux_eq_failBurstsAux sched false
  · intro st err rest f
    have hstop := (traceFetchStep_char
      { verbose := false, render := render, label := label } rfl st
      (FetchOutcome.fetchFail err)).2.2 (by simp [isFailOutcome])
    simp [drainLoop, hstop]
  · intro st b
    have h := (traceFetchStep_char
      { verbose := false, render := render, label := label } rfl st
      (FetchOutcome.fetchOk b)).2.1
    simpa [isFailOutcome] using h
